import Mathlib

/-!
Verification of the Kerr ISCO / shadow numerical core
(`src/physics/isco.py` and `src/physics/shadow.py`).

The Python code computes with real-valued formulas (numpy floats); the
embedding below models those computations over `ℝ`.  Functions that raise
(`ValueError` / `RuntimeError`) are modelled with `Except String`; the
NaN-pair sentinel returned by `screen_coords` is modelled with
`Option` (`none` stands for the `(nan, nan)` pair).  NumPy arrays are
modelled as `List ℝ`; `float(...)` applied to an array raises unless the
array has exactly one element, which the array models reproduce.
-/

noncomputable section

namespace Kerr

open Real

/-! ## ISCO module (`src/physics/isco.py`) -/

/-- Real cube root, as computed by `np.cbrt` (defined for all reals,
negative branch taken real). -/
def cbrt (x : ℝ) : ℝ := if x < 0 then -((-x) ^ ((1 : ℝ) / 3)) else x ^ ((1 : ℝ) / 3)

/-- Spin-validation message of `_validate_spin`. -/
def spinMsg : String := "Spin parameter must satisfy |a| < 1."

/-- Value computed by `z1` (Bardeen Z1), before the scalar cast:
`1 + cbrt(1-|a|^2) * (cbrt(1+|a|) + cbrt(1-|a|))`. -/
def z1Val (a : ℝ) : ℝ :=
  1 + cbrt (1 - |a| * |a|) * (cbrt (1 + |a|) + cbrt (1 - |a|))

/-- Value computed by `z2` (Bardeen Z2): `sqrt(3 a^2 + Z1^2)`. -/
def z2Val (a : ℝ) : ℝ := Real.sqrt (3 * a * a + z1Val a * z1Val a)

/-- Scalar `z1(a)`: validates the spin, then returns `z1Val`. -/
def z1 (a : ℝ) : Except String ℝ :=
  if 1 ≤ |a| then .error spinMsg else .ok (z1Val a)

/-- Scalar `z2(a)`: validates the spin (inside `z1`), then returns `z2Val`. -/
def z2 (a : ℝ) : Except String ℝ :=
  if 1 ≤ |a| then .error spinMsg else .ok (z2Val a)

/-- The radius computed in the body of `r_isco`:
`3 + Z2 + sigma * sqrt((3 - Z1) * (3 + Z1 + 2 Z2))`, `sigma = -1` for
prograde and `+1` for retrograde. -/
def riscoVal (a : ℝ) (prograde : Bool) : ℝ :=
  let z1v := z1Val a
  let z2v := Real.sqrt (3 * |a| * |a| + z1v * z1v)
  let root := Real.sqrt ((3 - z1v) * (3 + z1v + 2 * z2v))
  3 + z2v + (if prograde then -1 else 1) * root

/-- Scalar `r_isco(a, prograde)`. -/
def r_isco (a : ℝ) (prograde : Bool) : Except String ℝ :=
  if 1 ≤ |a| then .error spinMsg else .ok (riscoVal a prograde)

/-- The stability bracket of `E_equatorial`:
`r^1.5 - 3 r^0.5 + 2 sigma_a` with `sigma_a = |a|` (prograde) or `-|a|`
(retrograde); the code computes `r^1.5` as `r * sqrt r`. -/
def innerVal (r a : ℝ) (prograde : Bool) : ℝ :=
  r * Real.sqrt r - 3 * Real.sqrt r + 2 * (if prograde then |a| else -|a|)

/-- The energy value computed by `E_equatorial` when all guards pass. -/
def EVal (r a : ℝ) (prograde : Bool) : ℝ :=
  (r * Real.sqrt r - 2 * Real.sqrt r + (if prograde then |a| else -|a|)) /
    (r ^ ((0.75 : ℝ)) * Real.sqrt (innerVal r a prograde))

/-- Scalar `E_equatorial(r, a, prograde)` with its three guards, in the
order the code checks them. -/
def E_equatorial (r a : ℝ) (prograde : Bool) : Except String ℝ :=
  if r ≤ 0 then .error "Radius must be positive."
  else if 1 ≤ |a| then .error spinMsg
  else if innerVal r a prograde ≤ 0 then
    .error "Geodesic is not stable at the supplied radius."
  else .ok (EVal r a prograde)

/-- `eta(a, prograde) = 1 - E_equatorial(r_isco(a), a)`. -/
def eta (a : ℝ) (prograde : Bool) : Except String ℝ := do
  let r ← r_isco a prograde
  let e ← E_equatorial r a prograde
  .ok (1 - e)

/-! Array (broadcasting) versions.  `np.asarray` of a list of spins gives an
array; the formulas act elementwise; `float(...)` of the result (as done by
`z1` and `z2`) raises a `TypeError` unless the array has exactly one
element. -/

/-- `float(arr)` on a numpy array: succeeds only for single-element arrays. -/
def floatCast : List ℝ → Except String ℝ
  | [x] => .ok x
  | _ => .error "TypeError: only length-1 arrays can be converted to Python scalars"

/-- `z1` applied to an array of spins: elementwise formula, then the
`float(...)` cast of the resulting array. -/
def z1_arr (as : List ℝ) : Except String ℝ :=
  if as.any fun x => 1 ≤ |x| then .error spinMsg
  else floatCast (as.map z1Val)

/-- `z2` applied to an array of spins (calls `z1`, whose `float(...)` cast
raises for arrays of size ≠ 1). -/
def z2_arr (as : List ℝ) : Except String ℝ :=
  if as.any fun x => 1 ≤ |x| then .error spinMsg
  else floatCast (as.map z2Val)

/-- `r_isco` applied to an array of spins: elementwise. -/
def r_isco_arr (as : List ℝ) (prograde : Bool) : Except String (List ℝ) :=
  if as.any fun x => 1 ≤ |x| then .error spinMsg
  else .ok (as.map fun a => riscoVal a prograde)

/-- `E_equatorial` applied to same-shaped arrays of radii and spins. -/
def E_equatorial_arr (rs as : List ℝ) (prograde : Bool) :
    Except String (List ℝ) :=
  if rs.any fun r => r ≤ 0 then .error "Radius must be positive."
  else if as.any fun x => 1 ≤ |x| then .error spinMsg
  else if (rs.zip as).any fun p => innerVal p.1 p.2 prograde ≤ 0 then
    .error "Geodesic is not stable at the supplied radius."
  else .ok ((rs.zip as).map fun p => EVal p.1 p.2 prograde)

/-- `eta` applied to an array of spins. -/
def eta_arr (as : List ℝ) (prograde : Bool) : Except String (List ℝ) := do
  let rs ← r_isco_arr as prograde
  let es ← E_equatorial_arr rs as prograde
  .ok (es.map fun e => 1 - e)

end Kerr

namespace Kerr

/-! ## Shadow module (`src/physics/shadow.py`) -/

/-- `horizon_radius(a) = 1 + sqrt(1 - a^2)`, failing for `|a| >= 1`. -/
def horizon_radius (a : ℝ) : Except String ℝ :=
  if 1 ≤ |a| then .error spinMsg
  else .ok (1 + Real.sqrt (1 - a * a))

/-- The ξ value of `xi_eta_spherical`: `((r^2+a^2) Δ' - 4 r Δ) / (a Δ')`. -/
def xiVal (r a : ℝ) : ℝ :=
  ((r * r + a * a) * (2 * r - 2) - 4 * r * (r * r - 2 * r + a * a)) /
    (a * (2 * r - 2))

/-- The η value of `xi_eta_spherical`: `(4 r Δ / Δ')^2 / Δ - (ξ - a)^2`. -/
def etaVal (r a : ℝ) : ℝ :=
  (4 * r * (r * r - 2 * r + a * a) / (2 * r - 2)) *
      (4 * r * (r * r - 2 * r + a * a) / (2 * r - 2)) /
      (r * r - 2 * r + a * a) -
    (xiVal r a - a) * (xiVal r a - a)

/-- `xi_eta_spherical(r, a)` with its guards, in the order the code checks
them: near-zero spin, horizon (via `horizon_radius`), radius at or below
the horizon, degenerate `Δ'`. -/
def xi_eta_spherical (r a : ℝ) : Except String (ℝ × ℝ) :=
  if |a| < 1e-12 then
    .error "a=0 handled analytically; xi undefined due to division by a."
  else
    match horizon_radius a with
    | .error e => .error e
    | .ok rh =>
      if r ≤ rh then .error "Radius must exceed the event horizon."
      else if |2 * r - 2| < 1e-12 then
        .error "Derivative of Delta too small for stable spherical orbit."
      else .ok (xiVal r a, etaVal r a)

/-- The floored `sin_i` used by `screen_coords`: `sign(sin i) * 1e-15`
when `|sin i| < 1e-15` (with `+1e-15` when `sin i = 0`). -/
def sinFloored (s : ℝ) : ℝ :=
  if |s| < 1e-15 then (if s = 0 then 1e-15 else if 0 < s then 1e-15 else -1e-15)
  else s

/-- `screen_coords(xi, eta, a, inc_deg)`.  Returns `none` for the
`(nan, nan)` sentinel produced when `β² < 0`. -/
def screen_coords (xi eta a inc_deg : ℝ) : Option (ℝ × ℝ) :=
  let i_rad := inc_deg * Real.pi / 180
  let sin_i := sinFloored (Real.sin i_rad)
  let cos_i := Real.cos i_rad
  let alpha := -xi / sin_i
  let beta_sq := eta + a * a * cos_i * cos_i - xi * xi * (cos_i * cos_i) / (sin_i * sin_i)
  if beta_sq < 0 then none
  else some (alpha, Real.sqrt beta_sq)

/-- `np.linspace(lo, hi, m)` (endpoint included): `lo + k (hi - lo)/(m-1)`. -/
def linspace (lo hi : ℝ) (m : ℕ) : List ℝ :=
  (List.range m).map fun (k : ℕ) => lo + (hi - lo) * (k : ℝ) / ((m : ℝ) - 1)

/-- The circle sampling used for the `a ≈ 0` and face-on boundaries:
`theta = np.linspace(0, 2 pi, n, endpoint=False)`,
points `(radius cos theta_k, radius sin theta_k)`. -/
def circlePts (radius : ℝ) (n : ℕ) : List (ℝ × ℝ) :=
  (List.range n).map fun (k : ℕ) =>
    (radius * Real.cos (2 * Real.pi * (k : ℝ) / (n : ℝ)),
     radius * Real.sin (2 * Real.pi * (k : ℝ) / (n : ℝ)))

/-- One step family of the fixed 80-iteration bisection loop of
`_solve_face_on_radius` (fuel-indexed; the code runs exactly 80 passes and
then returns the midpoint). -/
def bisectLoop (a : ℝ) : ℕ → ℝ → ℝ → ℝ → ℝ → Except String ℝ
  | 0, lo, hi, _, _ => .ok (0.5 * (lo + hi))
  | k + 1, lo, hi, f0, f1 => do
    let mid := 0.5 * (lo + hi)
    let p ← xi_eta_spherical mid a
    if p.1 = 0 then .ok mid
    else if f0 * p.1 < 0 then bisectLoop a k lo mid f0 p.1
    else bisectLoop a k mid hi p.1 f1

/-- The scan of `_solve_face_on_radius` over consecutive valid `(r, ξ)`
samples: return the first exact zero, bisect on the first sign change,
otherwise fail. -/
def scanPairs (a : ℝ) : List (ℝ × ℝ) → Except String ℝ
  | [] => .error "Unable to locate face-on spherical orbit for the provided spin."
  | [_] => .error "Unable to locate face-on spherical orbit for the provided spin."
  | (r0, f0) :: (r1, f1) :: rest =>
    if f0 = 0 then .ok r0
    else if f0 * f1 < 0 then bisectLoop a 80 r0 r1 f0 f1
    else scanPairs a ((r1, f1) :: rest)

/-- `_solve_face_on_radius(a)`: sample ξ on a 2000-point grid above the
horizon, drop failed samples, then scan-and-bisect. -/
def solveFaceOnRadius (a : ℝ) : Except String ℝ := do
  let rh ← horizon_radius a
  let grid := linspace (rh + 1e-6) 20 2000
  let pairs := grid.filterMap fun r =>
    match xi_eta_spherical r a with
    | .error _ => none
    | .ok p => some (r, p.1)
  scanPairs a pairs

/-- The circle radius computed by `_face_on_boundary`
(`sqrt(27)` for `a ≈ 0`, else `sqrt(eta(r*) + a^2)`; numpy's `sqrt` of a
negative argument is NaN, caught by the `isfinite` guard). -/
def faceOnRadius (a : ℝ) : Except String ℝ :=
  if |a| < 1e-12 then .ok (Real.sqrt 27)
  else do
    let rf ← solveFaceOnRadius a
    let p ← xi_eta_spherical rf a
    if p.2 + a * a < 0 then .error "Face-on radius computation failed."
    else .ok (Real.sqrt (p.2 + a * a))

/-- `_face_on_boundary(a, n)`. -/
def faceOnBoundary (a : ℝ) (n : ℕ) : Except String (List (ℝ × ℝ)) := do
  let radius ← faceOnRadius a
  .ok (circlePts radius n)

/-- `np.arctan2(y, x)`: the polar angle in `(-π, π]`, i.e. `Complex.arg`. -/
def atan2 (y x : ℝ) : ℝ := Complex.arg ⟨x, y⟩

/-- Comparison by polar angle, the key `np.argsort(np.arctan2(β, α))`. -/
def angleLE (p q : ℝ × ℝ) : Prop := atan2 p.2 p.1 ≤ atan2 q.2 q.1

instance : DecidableRel angleLE := fun _ _ => Real.decidableLE _ _

instance : IsTotal (ℝ × ℝ) angleLE := ⟨fun _ _ => le_total _ _⟩

instance : IsTrans (ℝ × ℝ) angleLE := ⟨fun _ _ _ => le_trans⟩

/-- Sorting boundary points by polar angle about the origin. -/
def sortByAngle (l : List (ℝ × ℝ)) : List (ℝ × ℝ) := l.insertionSort angleLE

/-- The candidate points the general tracer emits for one sampled radius:
nothing if `xi_eta_spherical` raises or the projection is the NaN pair,
otherwise the point and its `(α, -β)` mirror. -/
def candPts (a inc_deg r : ℝ) : List (ℝ × ℝ) :=
  match xi_eta_spherical r a with
  | .error _ => []
  | .ok p =>
    match screen_coords p.1 p.2 a inc_deg with
    | none => []
    | some q => [(q.1, q.2), (q.1, -q.2)]

/-- All candidate points accumulated over the sampled radius grid. -/
def collectPts (a inc_deg : ℝ) (grid : List ℝ) : List (ℝ × ℝ) :=
  grid.flatMap (candPts a inc_deg)

/-- The general branch of `shadow_boundary`: sample `n/2` radii, collect the
valid projections, return empty arrays when nothing survives, otherwise the
angle-sorted point cloud. -/
def generalBoundary (a inc_deg : ℝ) (n : ℕ) (rh : ℝ) : List (ℝ × ℝ) :=
  let pts := collectPts a inc_deg (linspace (rh + 1e-6) 20 (n / 2))
  if pts = [] then [] else sortByAngle pts

/-- `shadow_boundary(a, inc_deg, n)`. -/
def shadow_boundary (a inc_deg : ℝ) (n : ℕ) : Except String (List (ℝ × ℝ)) :=
  if n < 100 then .error "Number of samples should be >= 100 for stability."
  else if |a| < 1e-12 then .ok (circlePts (Real.sqrt 27) n)
  else if |Real.sin (inc_deg * Real.pi / 180)| < 1e-6 then faceOnBoundary a n
  else do
    let rh ← horizon_radius a
    .ok (generalBoundary a inc_deg n rh)

/-! ## Basic facts about the embedded operations -/

lemma cbrt_of_nonneg {x : ℝ} (hx : 0 ≤ x) : cbrt x = x ^ ((1 : ℝ) / 3) := by
  unfold cbrt
  rw [if_neg (not_lt.2 hx)]

lemma cbrt_one : cbrt 1 = 1 := by
  rw [cbrt_of_nonneg zero_le_one, Real.one_rpow]

lemma cbrt_nonneg {x : ℝ} (hx : 0 ≤ x) : 0 ≤ cbrt x := by
  rw [cbrt_of_nonneg hx]
  exact Real.rpow_nonneg hx _

lemma cbrt_pos {x : ℝ} (hx : 0 < x) : 0 < cbrt x := by
  rw [cbrt_of_nonneg hx.le]
  exact Real.rpow_pos_of_pos hx _

lemma cbrt_cube {x : ℝ} (hx : 0 ≤ x) : cbrt x ^ 3 = x := by
  rw [cbrt_of_nonneg hx, ← Real.rpow_natCast (x ^ ((1:ℝ)/3)) 3, ← Real.rpow_mul hx]
  norm_num

lemma cbrt_mul {x y : ℝ} (hx : 0 ≤ x) (hy : 0 ≤ y) :
    cbrt (x * y) = cbrt x * cbrt y := by
  rw [cbrt_of_nonneg (mul_nonneg hx hy), cbrt_of_nonneg hx, cbrt_of_nonneg hy,
    Real.mul_rpow hx hy]

lemma z1Val_zero : z1Val 0 = 3 := by
  unfold z1Val
  rw [abs_zero]
  norm_num [cbrt_one]

lemma sqrt_nine : Real.sqrt 9 = 3 := by
  rw [show (9 : ℝ) = 3 ^ 2 by norm_num, Real.sqrt_sq (by norm_num)]

lemma riscoVal_zero (pro : Bool) : riscoVal 0 pro = 6 := by
  unfold riscoVal
  rw [z1Val_zero, abs_zero]
  norm_num [sqrt_nine]

end Kerr

namespace Kerr

lemma horizon_radius_ok {a : ℝ} (ha1 : |a| < 1) :
    horizon_radius a = .ok (1 + Real.sqrt (1 - a * a)) := by
  unfold horizon_radius
  rw [if_neg (not_le.2 ha1)]

/-- Reduction of `xi_eta_spherical` once the spin guards are settled. -/
lemma xi_eta_spherical_of_spin (r a : ℝ) (hnz : ¬ |a| < 1e-12) (ha1 : |a| < 1) :
    xi_eta_spherical r a =
      if r ≤ 1 + Real.sqrt (1 - a * a) then
        .error "Radius must exceed the event horizon."
      else if |2 * r - 2| < 1e-12 then
        .error "Derivative of Delta too small for stable spherical orbit."
      else .ok (xiVal r a, etaVal r a) := by
  unfold xi_eta_spherical
  rw [if_neg hnz, horizon_radius_ok ha1]

/-! ## Claim theorems -/

/-- C3: `r_isco(0, prograde=True) = 6` and `r_isco(0, prograde=False) = 6`
exactly (the Schwarzschild limit, hence within `1e-12`), for both orbital
senses. -/
theorem r_isco_schwarzschild : r_isco 0 true = .ok 6 ∧ r_isco 0 false = .ok 6 := by
  constructor <;>
  · unfold r_isco
    rw [if_neg (by norm_num), riscoVal_zero]

/-- C1: for `1e-12 ≤ |a| < 1`, `xi_eta_spherical(r, a)` fails exactly when
`r` is at or below the horizon `1 + sqrt(1-a^2)` or `|Δ'| = |2r-2| < 1e-12`,
and otherwise returns `ξ = ((r²+a²)Δ' - 4rΔ)/(aΔ')` and
`η = (4rΔ/Δ')²/Δ - (ξ-a)²` with `Δ = r² - 2r + a²`; and for `|a| < 1e-12`
it fails for every `r`. -/
theorem xi_eta_spherical_spec (a r : ℝ) :
    (1e-12 ≤ |a| → |a| < 1 →
      (((xi_eta_spherical r a).isOk = false ↔
          r ≤ 1 + Real.sqrt (1 - a * a) ∨ |2 * r - 2| < 1e-12) ∧
        (1 + Real.sqrt (1 - a * a) < r → ¬ |2 * r - 2| < 1e-12 →
          xi_eta_spherical r a =
            .ok (((r * r + a * a) * (2 * r - 2) - 4 * r * (r * r - 2 * r + a * a)) /
                   (a * (2 * r - 2)),
                 (4 * r * (r * r - 2 * r + a * a) / (2 * r - 2)) *
                     (4 * r * (r * r - 2 * r + a * a) / (2 * r - 2)) /
                     (r * r - 2 * r + a * a) -
                   (xiVal r a - a) * (xiVal r a - a))))) ∧
    (|a| < 1e-12 → (xi_eta_spherical r a).isOk = false) := by
  constructor
  · intro ha0 ha1
    have hnz : ¬ |a| < 1e-12 := not_lt.2 ha0
    rw [xi_eta_spherical_of_spin r a hnz ha1]
    constructor
    · by_cases h1 : r ≤ 1 + Real.sqrt (1 - a * a)
      · rw [if_pos h1]
        exact iff_of_true rfl (Or.inl h1)
      · rw [if_neg h1]
        by_cases h2 : |2 * r - 2| < 1e-12
        · rw [if_pos h2]
          exact iff_of_true rfl (Or.inr h2)
        · rw [if_neg h2]
          exact iff_of_false (by simp [Except.isOk, Except.toBool]) (not_or.2 ⟨h1, h2⟩)
    · intro h1 h2
      rw [if_neg (not_le.2 h1), if_neg h2]
      rfl
  · intro ha
    unfold xi_eta_spherical
    rw [if_pos ha]
    rfl

/-- Closed-form witness for C1 at `a = 1/2, r = 3` (success branch) and
`a = 0, r = 5` (near-zero-spin failure branch). -/
theorem xi_eta_spherical_spec_witness :
    ((1e-12 ≤ |(1/2 : ℝ)| ∧ |(1/2 : ℝ)| < 1) ∧
      (1 + Real.sqrt (1 - (1/2 : ℝ) * (1/2)) < 3 ∧ ¬ |2 * (3 : ℝ) - 2| < 1e-12) ∧
      xi_eta_spherical 3 (1/2) =
        .ok (((3 * 3 + (1/2 : ℝ) * (1/2)) * (2 * 3 - 2) -
                4 * 3 * (3 * 3 - 2 * 3 + (1/2 : ℝ) * (1/2))) /
               ((1/2) * (2 * 3 - 2)),
             (4 * 3 * (3 * 3 - 2 * 3 + (1/2 : ℝ) * (1/2)) / (2 * 3 - 2)) *
                 (4 * 3 * (3 * 3 - 2 * 3 + (1/2 : ℝ) * (1/2)) / (2 * 3 - 2)) /
                 (3 * 3 - 2 * 3 + (1/2 : ℝ) * (1/2)) -
               (xiVal 3 (1/2) - 1/2) * (xiVal 3 (1/2) - 1/2))) ∧
    (|(0 : ℝ)| < 1e-12 ∧ (xi_eta_spherical 5 0).isOk = false) := by
  have hs : Real.sqrt (1 - (1/2 : ℝ) * (1/2)) < 2 := by
    have h1 : (1 - (1/2 : ℝ) * (1/2)) ≤ 1 := by norm_num
    have := Real.sqrt_le_sqrt h1
    calc Real.sqrt (1 - (1/2 : ℝ) * (1/2)) ≤ Real.sqrt 1 := this
    _ = 1 := Real.sqrt_one
    _ < 2 := by norm_num
  have h1 : 1 + Real.sqrt (1 - (1/2 : ℝ) * (1/2)) < 3 := by linarith
  have h2 : ¬ |2 * (3 : ℝ) - 2| < 1e-12 := by norm_num
  have habs : |(1/2 : ℝ)| = 1/2 := abs_of_pos (by norm_num)
  refine ⟨⟨⟨by rw [habs]; norm_num, by rw [habs]; norm_num⟩, ⟨h1, h2⟩, ?_⟩,
    ⟨by norm_num, ?_⟩⟩
  · exact (((xi_eta_spherical_spec (1/2) 3).1 (by rw [habs]; norm_num)
      (by rw [habs]; norm_num)).2 h1 h2)
  · exact (xi_eta_spherical_spec 0 5).2 (by norm_num)

/-- C2: for `|a| < 1e-12` and `n ≥ 100`, `shadow_boundary(a, inc_deg, n)`
returns exactly `n` points, all lying exactly on the circle of radius
`sqrt 27` centred at the origin (so the mean radial deviation and the
standard deviation of the radius are `0`, below `1e-3`). -/
theorem shadow_boundary_zero_spin (a inc_deg : ℝ) (n : ℕ)
    (ha : |a| < 1e-12) (hn : 100 ≤ n) :
    shadow_boundary a inc_deg n = .ok (circlePts (Real.sqrt 27) n) ∧
    (circlePts (Real.sqrt 27) n).length = n ∧
    ∀ p ∈ circlePts (Real.sqrt 27) n, p.1 ^ 2 + p.2 ^ 2 = 27 := by
  refine ⟨?_, ?_, ?_⟩
  · unfold shadow_boundary
    rw [if_neg (by omega), if_pos ha]
  · unfold circlePts
    rw [List.length_map, List.length_range]
  · intro p hp
    unfold circlePts at hp
    simp only [List.mem_map, List.mem_range] at hp
    obtain ⟨k, _, rfl⟩ := hp
    have key : (Real.sqrt 27 * Real.cos (2 * Real.pi * (k : ℝ) / (n : ℝ))) ^ 2 +
        (Real.sqrt 27 * Real.sin (2 * Real.pi * (k : ℝ) / (n : ℝ))) ^ 2 =
        Real.sqrt 27 ^ 2 *
          (Real.cos (2 * Real.pi * (k : ℝ) / (n : ℝ)) ^ 2 +
            Real.sin (2 * Real.pi * (k : ℝ) / (n : ℝ)) ^ 2) := by
      ring
    show (Real.sqrt 27 * Real.cos (2 * Real.pi * (k : ℝ) / (n : ℝ))) ^ 2 +
        (Real.sqrt 27 * Real.sin (2 * Real.pi * (k : ℝ) / (n : ℝ))) ^ 2 = 27
    rw [key, Real.cos_sq_add_sin_sq, Real.sq_sqrt (by norm_num : (0:ℝ) ≤ 27), mul_one]

/-- Witness for C2 at `a = 0`, `inc_deg = 37`, `n = 100`. -/
theorem shadow_boundary_zero_spin_witness :
    (|(0 : ℝ)| < 1e-12 ∧ 100 ≤ 100) ∧
    shadow_boundary 0 37 100 = .ok (circlePts (Real.sqrt 27) 100) ∧
    (circlePts (Real.sqrt 27) 100).length = 100 ∧
    ∀ p ∈ circlePts (Real.sqrt 27) 100, p.1 ^ 2 + p.2 ^ 2 = 27 :=
  ⟨⟨by norm_num, le_refl _⟩, shadow_boundary_zero_spin 0 37 100 (by norm_num) (le_refl _)⟩

/-- C8: `screen_coords(xi, eta, a, inc_deg)` returns the NaN pair
(modelled as `none`), not an error, exactly when
`β² = η + a² cos²i - ξ² cos²i / sin²i < 0`; otherwise it returns
`(-ξ / sin i, sqrt β²)` — where `sin i` stands for the signed floor
`sinFloored (sin i)`, replacing values within `1e-15` of zero. -/
theorem screen_coords_spec (xi eta a inc_deg : ℝ) :
    (screen_coords xi eta a inc_deg = none ↔
      eta + a * a * Real.cos (inc_deg * Real.pi / 180) * Real.cos (inc_deg * Real.pi / 180) -
          xi * xi * (Real.cos (inc_deg * Real.pi / 180) * Real.cos (inc_deg * Real.pi / 180)) /
            (sinFloored (Real.sin (inc_deg * Real.pi / 180)) *
              sinFloored (Real.sin (inc_deg * Real.pi / 180))) < 0) ∧
    (0 ≤ eta + a * a * Real.cos (inc_deg * Real.pi / 180) * Real.cos (inc_deg * Real.pi / 180) -
          xi * xi * (Real.cos (inc_deg * Real.pi / 180) * Real.cos (inc_deg * Real.pi / 180)) /
            (sinFloored (Real.sin (inc_deg * Real.pi / 180)) *
              sinFloored (Real.sin (inc_deg * Real.pi / 180))) →
      screen_coords xi eta a inc_deg =
        some (-xi / sinFloored (Real.sin (inc_deg * Real.pi / 180)),
          Real.sqrt
            (eta + a * a * Real.cos (inc_deg * Real.pi / 180) * Real.cos (inc_deg * Real.pi / 180) -
              xi * xi * (Real.cos (inc_deg * Real.pi / 180) * Real.cos (inc_deg * Real.pi / 180)) /
                (sinFloored (Real.sin (inc_deg * Real.pi / 180)) *
                  sinFloored (Real.sin (inc_deg * Real.pi / 180)))))) := by
  unfold screen_coords
  constructor
  · by_cases h : eta + a * a * Real.cos (inc_deg * Real.pi / 180) * Real.cos (inc_deg * Real.pi / 180) -
        xi * xi * (Real.cos (inc_deg * Real.pi / 180) * Real.cos (inc_deg * Real.pi / 180)) /
          (sinFloored (Real.sin (inc_deg * Real.pi / 180)) *
            sinFloored (Real.sin (inc_deg * Real.pi / 180))) < 0
    · rw [if_pos h]
      exact iff_of_true rfl h
    · rw [if_neg h]
      exact iff_of_false (by simp) h
  · intro h
    rw [if_neg (not_lt.2 h)]

/-- Witness for C8 at `xi = 0, eta = 1, a = 0, inc_deg = 90` (β² = 1 ≥ 0). -/
theorem screen_coords_spec_witness :
    (0 ≤ (1:ℝ) + 0 * 0 * Real.cos ((90:ℝ) * Real.pi / 180) * Real.cos ((90:ℝ) * Real.pi / 180) -
        0 * 0 * (Real.cos ((90:ℝ) * Real.pi / 180) * Real.cos ((90:ℝ) * Real.pi / 180)) /
          (sinFloored (Real.sin ((90:ℝ) * Real.pi / 180)) *
            sinFloored (Real.sin ((90:ℝ) * Real.pi / 180)))) ∧
    screen_coords 0 1 0 90 =
      some (-0 / sinFloored (Real.sin ((90:ℝ) * Real.pi / 180)),
        Real.sqrt
          ((1:ℝ) + 0 * 0 * Real.cos ((90:ℝ) * Real.pi / 180) * Real.cos ((90:ℝ) * Real.pi / 180) -
            0 * 0 * (Real.cos ((90:ℝ) * Real.pi / 180) * Real.cos ((90:ℝ) * Real.pi / 180)) /
              (sinFloored (Real.sin ((90:ℝ) * Real.pi / 180)) *
                sinFloored (Real.sin ((90:ℝ) * Real.pi / 180))))) := by
  have hb : 0 ≤ (1:ℝ) + 0 * 0 * Real.cos ((90:ℝ) * Real.pi / 180) * Real.cos ((90:ℝ) * Real.pi / 180) -
      0 * 0 * (Real.cos ((90:ℝ) * Real.pi / 180) * Real.cos ((90:ℝ) * Real.pi / 180)) /
        (sinFloored (Real.sin ((90:ℝ) * Real.pi / 180)) *
          sinFloored (Real.sin ((90:ℝ) * Real.pi / 180))) := by
    rw [show (90:ℝ) * Real.pi / 180 = Real.pi / 2 by ring]
    norm_num
  exact ⟨hb, (screen_coords_spec 0 1 0 90).2 hb⟩

lemma atan2_zero_of_nonneg {x : ℝ} (hx : 0 ≤ x) : atan2 0 x = 0 := by
  unfold atan2
  have h : (⟨x, 0⟩ : ℂ) = (x : ℂ) := by
    apply Complex.ext <;> simp
  rw [h]
  exact Complex.arg_ofReal_of_nonneg hx

lemma atan2_neg_of_pos {y : ℝ} (hy : 0 < y) : atan2 (-y) 0 = -(Real.pi / 2) := by
  unfold atan2
  have h : (⟨0, -y⟩ : ℂ) = (y : ℂ) * (-Complex.I) := by
    apply Complex.ext <;> simp
  rw [h, Complex.arg_real_mul _ hy, Complex.arg_neg_I]

lemma circlePts_get (ρ : ℝ) (n i : ℕ) (h : i < (circlePts ρ n).length) :
    (circlePts ρ n).get ⟨i, h⟩ =
      (ρ * Real.cos (2 * Real.pi * (i : ℝ) / (n : ℝ)),
       ρ * Real.sin (2 * Real.pi * (i : ℝ) / (n : ℝ))) := by
  unfold circlePts
  rw [List.get_map]
  congr 2 <;> rw [List.get_range]

lemma circlePts_length (ρ : ℝ) (n : ℕ) : (circlePts ρ n).length = n := by
  unfold circlePts
  rw [List.length_map, List.length_range]

/-- C9 (counterexample): the claim fails on the zero-spin branch.
`shadow_boundary(0, 0, 100)` returns the circle samples in parameter order
(angles `0, …, π, -0.98π, …`), which is not sorted by polar angle, so
re-sorting does reorder the points. -/
theorem shadow_boundary_sort_counterexample :
    shadow_boundary 0 0 100 = .ok (circlePts (Real.sqrt 27) 100) ∧
    sortByAngle (circlePts (Real.sqrt 27) 100) ≠ circlePts (Real.sqrt 27) 100 := by
  constructor
  · unfold shadow_boundary
    rw [if_neg (by omega), if_pos (by norm_num)]
  · intro heq
    have hs : List.Sorted angleLE (circlePts (Real.sqrt 27) 100) := by
      rw [← heq]
      exact List.sorted_insertionSort angleLE _
    have hlen : (circlePts (Real.sqrt 27) 100).length = 100 :=
      circlePts_length _ _
    have h0lt : (0 : ℕ) < (circlePts (Real.sqrt 27) 100).length := by omega
    have h75lt : (75 : ℕ) < (circlePts (Real.sqrt 27) 100).length := by omega
    have key := hs.rel_get_of_lt
      (a := ⟨0, h0lt⟩) (b := ⟨75, h75lt⟩) (Fin.mk_lt_mk.mpr (by norm_num))
    rw [circlePts_get, circlePts_get] at key
    unfold angleLE at key
    simp only at key
    have e0 : 2 * Real.pi * ((0 : ℕ) : ℝ) / ((100 : ℕ) : ℝ) = 0 := by
      push_cast
      ring
    have e75 : 2 * Real.pi * ((75 : ℕ) : ℝ) / ((100 : ℕ) : ℝ) = Real.pi + Real.pi / 2 := by
      push_cast
      ring
    rw [e0, e75, Real.cos_zero, Real.sin_zero, mul_one, mul_zero] at key
    have hc : Real.cos (Real.pi + Real.pi / 2) = 0 := by
      rw [Real.cos_add]
      simp
    have hsn : Real.sin (Real.pi + Real.pi / 2) = -1 := by
      rw [Real.sin_add]
      simp
    rw [hc, hsn, mul_zero] at key
    have hpos : (0 : ℝ) < Real.sqrt 27 := Real.sqrt_pos.2 (by norm_num)
    rw [show Real.sqrt 27 * (-1) = -Real.sqrt 27 by ring] at key
    rw [atan2_zero_of_nonneg hpos.le, atan2_neg_of_pos hpos] at key
    have hpi : 0 < Real.pi := Real.pi_pos
    linarith

/-- C9 (amended): re-sorting by polar angle is idempotent for every boundary
produced by the general tracer branch (the code path that actually sorts;
the zero-spin and face-on branches emit circle samples in parameter order
instead). -/
theorem sortByAngle_generalBoundary_idem (a inc_deg : ℝ) (n : ℕ) (rh : ℝ) :
    sortByAngle (generalBoundary a inc_deg n rh) = generalBoundary a inc_deg n rh := by
  unfold generalBoundary
  by_cases h : collectPts a inc_deg (linspace (rh + 1e-6) 20 (n / 2)) = []
  · rw [if_pos h]
    rfl
  · rw [if_neg h]
    exact (List.sorted_insertionSort angleLE _).insertionSort_eq

lemma collectPts_nil {a inc_deg : ℝ} {grid : List ℝ}
    (h : ∀ r ∈ grid, candPts a inc_deg r = []) : collectPts a inc_deg grid = [] := by
  unfold collectPts
  induction grid with
  | nil => rfl
  | cons x xs ih =>
    rw [List.flatMap_cons, h x (List.mem_cons_self x xs),
      ih fun r hr => h r (List.mem_cons_of_mem x hr), List.nil_append]

lemma candPts_eq_nil_of_ok {a inc_deg r ξ η : ℝ}
    (hx : xi_eta_spherical r a = .ok (ξ, η))
    (hsc : screen_coords ξ η a inc_deg = none) : candPts a inc_deg r = [] := by
  simp only [candPts, hx, hsc]

lemma sinFloored_microsixth : sinFloored 1e-6 = 1e-6 := by
  unfold sinFloored
  rw [if_neg]
  rw [abs_of_pos (by norm_num : (0:ℝ) < 1e-6)]
  norm_num

lemma arcsin_deg_cancel :
    Real.arcsin 1e-6 * 180 / Real.pi * Real.pi / 180 = Real.arcsin 1e-6 := by
  field_simp

lemma screen_coords_none_at_inc {ξ η : ℝ}
    (hβ : η + 3/5 * (3/5) * (1 - 1e-6 ^ 2) - ξ * ξ * (1 - 1e-6 ^ 2) / (1e-6 * 1e-6) < 0) :
    screen_coords ξ η (3/5) (Real.arcsin 1e-6 * 180 / Real.pi) = none := by
  unfold screen_coords
  rw [arcsin_deg_cancel]
  dsimp only
  rw [Real.sin_arcsin (by norm_num) (by norm_num), Real.cos_arcsin,
    sinFloored_microsixth]
  have hss : Real.sqrt (1 - 1e-6 ^ 2) * Real.sqrt (1 - 1e-6 ^ 2) = 1 - 1e-6 ^ 2 :=
    Real.mul_self_sqrt (by norm_num)
  have hEq : η + 3/5 * (3/5) * Real.sqrt (1 - 1e-6 ^ 2) * Real.sqrt (1 - 1e-6 ^ 2) -
      ξ * ξ * (Real.sqrt (1 - 1e-6 ^ 2) * Real.sqrt (1 - 1e-6 ^ 2)) / (1e-6 * 1e-6) =
      η + 3/5 * (3/5) * (1 - 1e-6 ^ 2) - ξ * ξ * (1 - 1e-6 ^ 2) / (1e-6 * 1e-6) := by
    linear_combination (3/5 * (3/5) - ξ * ξ / (1e-6 * 1e-6)) * hss
  rw [if_pos (by rw [hEq]; exact hβ)]

lemma candPts_none_of_neg (r : ℝ) (hr : 9/5 < r) (hΔ : ¬ |2 * r - 2| < 1e-12)
    (hβ : etaVal r (3/5) + 3/5 * (3/5) * (1 - 1e-6 ^ 2) -
        xiVal r (3/5) * xiVal r (3/5) * (1 - 1e-6 ^ 2) / (1e-6 * 1e-6) < 0) :
    candPts (3/5) (Real.arcsin 1e-6 * 180 / Real.pi) r = [] := by
  have ha12 : ¬ |(3/5 : ℝ)| < 1e-12 := by
    rw [abs_of_pos (by norm_num : (0:ℝ) < 3/5)]
    norm_num
  have ha1 : |(3/5 : ℝ)| < 1 := by
    rw [abs_of_pos (by norm_num : (0:ℝ) < 3/5)]
    norm_num
  have hsq : Real.sqrt (1 - (3/5 : ℝ) * (3/5)) = 4/5 := by
    rw [show (1 - (3/5:ℝ) * (3/5)) = (4/5)^2 by norm_num, Real.sqrt_sq (by norm_num)]
  have hx : xi_eta_spherical r (3/5) = .ok (xiVal r (3/5), etaVal r (3/5)) := by
    rw [xi_eta_spherical_of_spin r (3/5) ha12 ha1, hsq]
    rw [if_neg (not_le.2 (by linarith : (1:ℝ) + 4/5 < r)), if_neg hΔ]
  exact candPts_eq_nil_of_ok hx (screen_coords_none_at_inc hβ)

/-- C10: in the general branch (`1e-12 ≤ |a| < 1`, `|sin i| ≥ 1e-6`,
`n ≥ 100`), when every sampled candidate radius either makes
`xi_eta_spherical` fail or projects to the NaN pair, `shadow_boundary`
returns empty arrays rather than raising an error. -/
theorem shadow_boundary_all_filtered (a inc_deg : ℝ) (n : ℕ)
    (ha0 : 1e-12 ≤ |a|) (ha1 : |a| < 1)
    (hs : ¬ |Real.sin (inc_deg * Real.pi / 180)| < 1e-6) (hn : 100 ≤ n)
    (hall : ∀ r ∈ linspace (1 + Real.sqrt (1 - a * a) + 1e-6) 20 (n / 2),
      candPts a inc_deg r = []) :
    shadow_boundary a inc_deg n = .ok [] := by
  unfold shadow_boundary
  rw [if_neg (by omega), if_neg (not_lt.2 ha0), if_neg hs, horizon_radius_ok ha1]
  show Except.ok (generalBoundary a inc_deg n (1 + Real.sqrt (1 - a * a))) = .ok []
  unfold generalBoundary
  rw [if_pos (collectPts_nil hall)]

set_option maxHeartbeats 4000000 in
/-- Witness for C10 at `a = 3/5`, `inc_deg = arcsin(1e-6)·180/π` (so that
`sin i = 1e-6`, just outside the face-on band) and `n = 100`: every one of
the 50 sampled radii projects to `β² < 0`, and the boundary is the empty
pair of arrays. -/
theorem shadow_boundary_all_filtered_witness :
    (1e-12 ≤ |(3/5 : ℝ)| ∧ |(3/5 : ℝ)| < 1 ∧
      ¬ |Real.sin (Real.arcsin 1e-6 * 180 / Real.pi * Real.pi / 180)| < 1e-6 ∧
      (100 : ℕ) ≤ 100) ∧
    shadow_boundary (3/5) (Real.arcsin 1e-6 * 180 / Real.pi) 100 = .ok [] := by
  have habs : |(3/5 : ℝ)| = 3/5 := abs_of_pos (by norm_num)
  have hsin : Real.sin (Real.arcsin 1e-6 * 180 / Real.pi * Real.pi / 180) = 1e-6 := by
    rw [arcsin_deg_cancel, Real.sin_arcsin (by norm_num) (by norm_num)]
  have hs : ¬ |Real.sin (Real.arcsin 1e-6 * 180 / Real.pi * Real.pi / 180)| < 1e-6 := by
    rw [hsin, abs_of_pos (by norm_num : (0:ℝ) < 1e-6)]
    norm_num
  have hsq : Real.sqrt (1 - (3/5 : ℝ) * (3/5)) = 4/5 := by
    rw [show (1 - (3/5:ℝ) * (3/5)) = (4/5)^2 by norm_num, Real.sqrt_sq (by norm_num)]
  have hall : ∀ r ∈ linspace (1 + Real.sqrt (1 - (3/5 : ℝ) * (3/5)) + 1e-6) 20 (100 / 2),
      candPts (3/5) (Real.arcsin 1e-6 * 180 / Real.pi) r = [] := by
    simp only [show (100 / 2 : ℕ) = 50 from by norm_num]
    rw [hsq]
    intro r hr
    unfold linspace at hr
    simp only [List.mem_map, List.mem_range] at hr
    obtain ⟨k, hk, rfl⟩ := hr
    have hk0 : (0 : ℝ) ≤ (k : ℝ) := Nat.cast_nonneg k
    have hstep : (0 : ℝ) ≤ (20 - (1 + 4/5 + 1e-6)) * (k : ℝ) / (((50 : ℕ) : ℝ) - 1) := by
      apply div_nonneg (mul_nonneg (by norm_num) hk0) (by norm_num)
    have hr95 : (9 : ℝ)/5 < 1 + 4/5 + 1e-6 + (20 - (1 + 4/5 + 1e-6)) * (k : ℝ) /
        (((50 : ℕ) : ℝ) - 1) := by
      linarith
    refine candPts_none_of_neg _ hr95 ?_ ?_
    · rw [not_lt, abs_of_nonneg (by linarith)]
      linarith
    · interval_cases k <;> norm_num [xiVal, etaVal]
  exact ⟨⟨by rw [habs]; norm_num, by rw [habs]; norm_num, hs, le_refl _⟩,
    shadow_boundary_all_filtered (3/5) (Real.arcsin 1e-6 * 180 / Real.pi) 100
      (by rw [habs]; norm_num) (by rw [habs]; norm_num) hs (le_refl _) hall⟩

/-- C5 (counterexample): `screen_coords` performs no spin validation — at
`a = 2` (so `|a| ≥ 1`) it happily returns a real pair instead of failing. -/
theorem screen_coords_skips_validation : (screen_coords 0 1 2 90).isSome = true := by
  unfold screen_coords
  dsimp only
  rw [show (90:ℝ) * Real.pi / 180 = Real.pi / 2 by ring, Real.sin_pi_div_two,
    Real.cos_pi_div_two]
  rw [show sinFloored 1 = 1 from by unfold sinFloored; rw [if_neg]; rw [abs_one]; norm_num]
  rw [if_neg (by norm_num)]
  rfl

/-- C5 (amended): every public function that receives a spin — except
`screen_coords`, which never validates it (see the counterexample), and
`boundary_metrics`, which takes no spin at all — fails for every input with
`|a| ≥ 1`: `z1`, `z2`, `r_isco`, `E_equatorial` (for every radius), `eta`,
`horizon_radius`, `xi_eta_spherical` (for every radius) and
`shadow_boundary` (for every inclination and sample count). -/
theorem spin_validation_amended (a : ℝ) (h : 1 ≤ |a|) :
    (z1 a).isOk = false ∧ (z2 a).isOk = false ∧
    (∀ pro, (r_isco a pro).isOk = false) ∧
    (∀ r pro, (E_equatorial r a pro).isOk = false) ∧
    (∀ pro, (eta a pro).isOk = false) ∧
    (horizon_radius a).isOk = false ∧
    (∀ r, (xi_eta_spherical r a).isOk = false) ∧
    (∀ inc_deg n, (shadow_boundary a inc_deg n).isOk = false) := by
  have ha12 : ¬ |a| < 1e-12 := not_lt.2 (by linarith)
  have ha0 : ¬ |a| < 1 := not_lt.2 h
  have hrisco : ∀ pro, r_isco a pro = .error spinMsg := fun pro => by
    unfold r_isco
    rw [if_pos h]
  have hhor : horizon_radius a = .error spinMsg := by
    unfold horizon_radius
    rw [if_pos h]
  have hxi : ∀ r, xi_eta_spherical r a = .error spinMsg := fun r => by
    unfold xi_eta_spherical
    rw [if_neg ha12, hhor]
  have hsolve : solveFaceOnRadius a = .error spinMsg := by
    unfold solveFaceOnRadius
    simp only [hhor]
    rfl
  have hface : faceOnRadius a = .error spinMsg := by
    unfold faceOnRadius
    rw [if_neg ha12]
    simp only [hsolve]
    rfl
  refine ⟨?_, ?_, fun pro => ?_, fun r pro => ?_, fun pro => ?_, ?_, fun r => ?_,
    fun inc_deg n => ?_⟩
  · unfold z1
    rw [if_pos h]
    rfl
  · unfold z2
    rw [if_pos h]
    rfl
  · rw [hrisco]
    rfl
  · unfold E_equatorial
    by_cases hr : r ≤ 0
    · rw [if_pos hr]
      rfl
    · rw [if_neg hr, if_pos h]
      rfl
  · unfold eta
    simp only [hrisco]
    rfl
  · rw [hhor]
    rfl
  · rw [hxi]
    rfl
  · unfold shadow_boundary
    by_cases hn : n < 100
    · rw [if_pos hn]
      rfl
    · rw [if_neg hn, if_neg ha12]
      by_cases hsi : |Real.sin (inc_deg * Real.pi / 180)| < 1e-6
      · rw [if_pos hsi]
        unfold faceOnBoundary
        simp only [hface]
        rfl
      · rw [if_neg hsi]
        simp only [hhor]
        rfl

/-- Witness for C5 (amended) at `a = 3/2`, with the quantified components
instantiated at `r = 5`, `prograde`, `inc_deg = 30`, `n = 200`. -/
theorem spin_validation_amended_witness :
    (1 ≤ |(3/2 : ℝ)|) ∧ (z1 (3/2)).isOk = false ∧ (z2 (3/2)).isOk = false ∧
    (r_isco (3/2) true).isOk = false ∧ (E_equatorial 5 (3/2) true).isOk = false ∧
    (eta (3/2) true).isOk = false ∧ (horizon_radius (3/2)).isOk = false ∧
    (xi_eta_spherical 5 (3/2)).isOk = false ∧
    (shadow_boundary (3/2) 30 200).isOk = false := by
  have h : 1 ≤ |(3/2 : ℝ)| := by
    rw [abs_of_pos (by norm_num : (0:ℝ) < 3/2)]
    norm_num
  obtain ⟨h1, h2, h3, h4, h5, h6, h7, h8⟩ := spin_validation_amended (3/2) h
  exact ⟨h, h1, h2, h3 true, h4 5 true, h5 true, h6, h7 5, h8 30 200⟩

/-- C7 (counterexample): the claim's bracket uses `σ_a = ±a`, but the code
uses `σ_a = ±|a|`.  At `r = 9/4`, `a = -9/10`, prograde, the claim's inner
bracket `r^1.5 - 3 r^0.5 + 2a = -2.925 ≤ 0` demands a failure, yet the code
(whose bracket is `r^1.5 - 3 r^0.5 + 2|a| = 0.675 > 0`) succeeds. -/
theorem E_equatorial_sign_counterexample :
    (E_equatorial (9/4) (-(9/10)) true).isOk = true ∧
    (9/4 : ℝ) * Real.sqrt (9/4) - 3 * Real.sqrt (9/4) + 2 * (-(9/10)) ≤ 0 := by
  have hs : Real.sqrt ((9:ℝ)/4) = 3/2 := by
    rw [show ((9:ℝ)/4) = (3/2)^2 by norm_num, Real.sqrt_sq (by norm_num)]
  have habs : |(-(9/10) : ℝ)| = 9/10 := by
    rw [abs_neg, abs_of_pos (by norm_num : (0:ℝ) < 9/10)]
  constructor
  · unfold E_equatorial
    rw [if_neg (by norm_num), if_neg (by rw [habs]; norm_num), if_neg ?_]
    · rfl
    · unfold innerVal
      rw [hs]
      simp only [if_pos, habs]
      norm_num
  · rw [hs]
    norm_num

/-- C7 (amended): `E_equatorial(r, a, prograde)` fails exactly when
`r ≤ 0`, `|a| ≥ 1`, or the inner bracket `r^1.5 - 3 r^0.5 + 2σ_a ≤ 0` with
`σ_a = |a|` for prograde and `-|a|` for retrograde (the code folds the spin
sign into `|a|`); otherwise it returns
`(r^1.5 - 2 r^0.5 + σ_a) / (r^0.75 · sqrt(r^1.5 - 3 r^0.5 + 2σ_a))`. -/
theorem E_equatorial_spec (r a : ℝ) (pro : Bool) :
    ((E_equatorial r a pro).isOk = false ↔
      r ≤ 0 ∨ 1 ≤ |a| ∨ innerVal r a pro ≤ 0) ∧
    (¬ r ≤ 0 → ¬ 1 ≤ |a| → ¬ innerVal r a pro ≤ 0 →
      E_equatorial r a pro =
        .ok ((r * Real.sqrt r - 2 * Real.sqrt r + (if pro then |a| else -|a|)) /
          (r ^ ((0.75 : ℝ)) * Real.sqrt (innerVal r a pro)))) := by
  constructor
  · unfold E_equatorial
    by_cases h1 : r ≤ 0
    · rw [if_pos h1]
      exact iff_of_true rfl (Or.inl h1)
    · rw [if_neg h1]
      by_cases h2 : 1 ≤ |a|
      · rw [if_pos h2]
        exact iff_of_true rfl (Or.inr (Or.inl h2))
      · rw [if_neg h2]
        by_cases h3 : innerVal r a pro ≤ 0
        · rw [if_pos h3]
          exact iff_of_true rfl (Or.inr (Or.inr h3))
        · rw [if_neg h3]
          exact iff_of_false (by simp [Except.isOk, Except.toBool])
            (by push_neg; exact ⟨not_le.1 h1, not_le.1 h2, not_le.1 h3⟩)
  · intro h1 h2 h3
    unfold E_equatorial
    rw [if_neg h1, if_neg h2, if_neg h3]
    rfl

/-- Witness for C7 (amended) at `r = 6`, `a = 0`, prograde (the
Schwarzschild ISCO, where the bracket is `3·sqrt 6 > 0`). -/
theorem E_equatorial_spec_witness :
    (¬ (6 : ℝ) ≤ 0 ∧ ¬ 1 ≤ |(0 : ℝ)| ∧ ¬ innerVal 6 0 true ≤ 0) ∧
    E_equatorial 6 0 true =
      .ok ((6 * Real.sqrt 6 - 2 * Real.sqrt 6 + (if true then |(0:ℝ)| else -|(0:ℝ)|)) /
        ((6 : ℝ) ^ ((0.75 : ℝ)) * Real.sqrt (innerVal 6 0 true))) := by
  have h6 : (0 : ℝ) < Real.sqrt 6 := Real.sqrt_pos.2 (by norm_num)
  have h3 : ¬ innerVal 6 0 true ≤ 0 := by
    unfold innerVal
    rw [abs_zero, if_pos rfl]
    push_neg
    nlinarith [h6]
  exact ⟨⟨by norm_num, by norm_num, h3⟩,
    (E_equatorial_spec 6 0 true).2 (by norm_num) (by norm_num) h3⟩

/-! ## The Bardeen cubic: structure of `z1Val` and the ISCO quartic -/

lemma z1_cubic (a : ℝ) (h0 : 0 ≤ a) (h1 : a < 1) :
    (z1Val a - 1) ^ 3 = (1 - a * a) * (2 + 3 * (z1Val a - 1)) := by
  have habs : |a| = a := abs_of_nonneg h0
  have hp0 : (0:ℝ) ≤ 1 + a := by linarith
  have hq0 : (0:ℝ) ≤ 1 - a := by linarith
  have hp3 : cbrt (1 + a) ^ 3 = 1 + a := cbrt_cube hp0
  have hq3 : cbrt (1 - a) ^ 3 = 1 - a := cbrt_cube hq0
  have hpq : cbrt (1 - a * a) = cbrt (1 + a) * cbrt (1 - a) := by
    rw [show (1 - a * a : ℝ) = (1 + a) * (1 - a) by ring]
    exact cbrt_mul hp0 hq0
  have hz : z1Val a - 1 = cbrt (1 + a) * cbrt (1 - a) * (cbrt (1 + a) + cbrt (1 - a)) := by
    unfold z1Val
    rw [habs, hpq]
    ring
  rw [hz]
  have hA : (1 - a * a : ℝ) = cbrt (1 + a) ^ 3 * cbrt (1 - a) ^ 3 := by
    rw [hp3, hq3]
    ring
  rw [hA]
  have h2 : cbrt (1 + a) ^ 3 + cbrt (1 - a) ^ 3 = 2 := by
    rw [hp3, hq3]
    ring
  linear_combination (cbrt (1 + a) ^ 3 * cbrt (1 - a) ^ 3) * h2

lemma z1Val_gt_one (a : ℝ) (h0 : 0 < a) (h1 : a < 1) : 1 < z1Val a := by
  have habs : |a| = a := abs_of_nonneg h0.le
  have hp : 0 < cbrt (1 + a) := cbrt_pos (by linarith)
  have hq : 0 < cbrt (1 - a) := cbrt_pos (by linarith)
  have ht : 0 < cbrt (1 - a * a) := cbrt_pos (by nlinarith)
  unfold z1Val
  rw [habs]
  nlinarith [mul_pos ht (add_pos hp hq)]

lemma z1Val_lt_three (a : ℝ) (h0 : 0 < a) (h1 : a < 1) : z1Val a < 3 := by
  have hw1 : 1 < z1Val a := z1Val_gt_one a h0 h1
  have hc := z1_cubic a h0.le h1
  set w := z1Val a - 1 with hwdef
  have hw0 : 0 < w := by simp [hwdef]; linarith
  by_contra hge
  push_neg at hge
  have hw2 : 2 ≤ w := by simp [hwdef]; linarith
  have hlt : w ^ 3 < 2 + 3 * w := by
    have h2w : 0 < 2 + 3 * w := by linarith
    nlinarith [hc, h2w, mul_pos h0 h0]
  nlinarith [mul_nonneg (sub_nonneg.2 hw2) (sq_nonneg (w + 1))]

lemma z1_rel (a : ℝ) (h0 : 0 ≤ a) (h1 : a < 1) :
    a ^ 2 * (3 * z1Val a - 1) = z1Val a ^ 2 * (3 - z1Val a) := by
  have hc := z1_cubic a h0 h1
  linear_combination hc

lemma riscoVal_true_eq (a : ℝ) : riscoVal a true =
    3 + Real.sqrt (3 * |a| * |a| + z1Val a * z1Val a) -
      Real.sqrt ((3 - z1Val a) *
        (3 + z1Val a + 2 * Real.sqrt (3 * |a| * |a| + z1Val a * z1Val a))) := by
  unfold riscoVal
  norm_num
  ring

lemma riscoVal_false_eq (a : ℝ) : riscoVal a false =
    3 + Real.sqrt (3 * |a| * |a| + z1Val a * z1Val a) +
      Real.sqrt ((3 - z1Val a) *
        (3 + z1Val a + 2 * Real.sqrt (3 * |a| * |a| + z1Val a * z1Val a))) := by
  unfold riscoVal
  norm_num

/-- Shared Z1/Z2 facts for `0 < a < 1`, phrased for the (nonneg) spin
used inside `riscoVal`. -/
lemma z2_facts (a : ℝ) (h0 : 0 < a) (h1 : a < 1) :
    Real.sqrt (3 * |a| * |a| + z1Val a * z1Val a) ^ 2 = 3 * a * a + z1Val a * z1Val a ∧
    Real.sqrt (3 * |a| * |a| + z1Val a * z1Val a) ^ 2 * (3 * z1Val a - 1) = 8 * z1Val a ^ 2 ∧
    2 < Real.sqrt (3 * |a| * |a| + z1Val a * z1Val a) ∧
    Real.sqrt (3 * |a| * |a| + z1Val a * z1Val a) < 3 := by
  have habs : |a| = a := abs_of_nonneg h0.le
  have hv1 : 1 < z1Val a := z1Val_gt_one a h0 h1
  have hv3 : z1Val a < 3 := z1Val_lt_three a h0 h1
  have hrel := z1_rel a h0.le h1
  set v := z1Val a with hv
  have hS0 : 0 ≤ Real.sqrt (3 * |a| * |a| + v * v) := Real.sqrt_nonneg _
  have hS2 : Real.sqrt (3 * |a| * |a| + v * v) ^ 2 = 3 * a * a + v * v := by
    rw [habs]
    exact Real.sq_sqrt (by nlinarith)
  set S := Real.sqrt (3 * |a| * |a| + v * v) with hSd
  have hSrel : S ^ 2 * (3 * v - 1) = 8 * v ^ 2 := by
    rw [hS2]
    linear_combination 3 * hrel
  have hfac4 : (S ^ 2 - 4) * (3 * v - 1) = 4 * (2 * v - 1) * (v - 1) := by
    linear_combination hSrel
  have hpos4 : 0 < 4 * (2 * v - 1) * (v - 1) := by
    apply mul_pos (by linarith)
    linarith
  have h4 : 4 < S ^ 2 := by nlinarith [hfac4, hpos4, hv1]
  have hfac9 : (9 - S ^ 2) * (3 * v - 1) = (3 - v) * (8 * v - 3) := by
    linear_combination -hSrel
  have hpos9 : 0 < (3 - v) * (8 * v - 3) := by
    apply mul_pos (by linarith)
    linarith
  have h9 : S ^ 2 < 9 := by nlinarith [hfac9, hpos9, hv1]
  refine ⟨hS2, hSrel, ?_, ?_⟩
  · nlinarith [hS0, h4]
  · nlinarith [hS0, h9]

lemma one_lt_of_sq {x y : ℝ} (hx0 : 0 ≤ x) (hx2 : x ^ 2 = y) (hy : 1 < y) : 1 < x := by
  nlinarith

lemma pos_of_sq_lt {u R : ℝ} (h : u ^ 2 < R ^ 2) (hR : 0 ≤ R) : 0 < R := by
  nlinarith [sq_nonneg u]

/-- The prograde ISCO value for `0 < a < 1`: bounds `1 < r < 6` and the
Bardeen quartic `r² - 6r + 8a·sqrt r - 3a² = 0`. -/
lemma risco_pro_props (a : ℝ) (h0 : 0 < a) (h1 : a < 1) :
    1 < riscoVal a true ∧ riscoVal a true < 6 ∧
      riscoVal a true ^ 2 - 6 * riscoVal a true +
        8 * a * Real.sqrt (riscoVal a true) - 3 * a ^ 2 = 0 := by
  have hv1 : 1 < z1Val a := z1Val_gt_one a h0 h1
  have hv3 : z1Val a < 3 := z1Val_lt_three a h0 h1
  have hrel := z1_rel a h0.le h1
  obtain ⟨hS2, hSrel, hSgt, hSlt⟩ := z2_facts a h0 h1
  rw [riscoVal_true_eq]
  set v := z1Val a with hv
  set S := Real.sqrt (3 * |a| * |a| + v * v) with hSd
  have hS0 : 0 ≤ S := Real.sqrt_nonneg _
  set R := Real.sqrt ((3 - v) * (3 + v + 2 * S)) with hRd
  have hR0 : 0 ≤ R := Real.sqrt_nonneg _
  have hR2 : R ^ 2 = (3 - v) * (3 + v + 2 * S) :=
    Real.sq_sqrt (mul_nonneg (by linarith) (by linarith))
  have ht1 : 0 < (v - 1) * S := mul_pos (by linarith) (by linarith)
  have ht2 : 4 < S ^ 2 := by nlinarith [hSgt, hS0]
  have ht3 : 1 < v ^ 2 := by nlinarith [hv1]
  have hRsq : R ^ 2 < (2 + S) ^ 2 := by nlinarith [hR2, ht1, ht2, ht3]
  have hRlt : R < 2 + S := lt_of_pow_lt_pow_left 2 (by linarith) hRsq
  have hr1 : 1 < 3 + S - R := by linarith
  have hr6 : 3 + S - R < 6 := by linarith
  refine ⟨hr1, hr6, ?_⟩
  have hsq1 : (3 + S - R) ^ 2 - 6 * (3 + S - R) - 3 * a ^ 2 = 2 * S * (3 - v - R) := by
    linear_combination hS2 + hR2
  have hgeprod : 0 ≤ (3 - v) * (2 * v + 2 * S) := mul_nonneg (by linarith) (by linarith)
  have hk : (3 - v) ^ 2 ≤ R ^ 2 := by nlinarith [hR2, hgeprod]
  have hge : 3 - v ≤ R := le_of_pow_le_pow_left (by norm_num) hR0 hk
  have hsign : (3 + S - R) ^ 2 - 6 * (3 + S - R) - 3 * a ^ 2 ≤ 0 := by
    rw [hsq1]
    nlinarith [mul_nonneg hS0 (sub_nonneg.2 hge)]
  have hKey : S ^ 2 * (3 - v) = 8 * a ^ 2 := by
    rw [hS2]
    linear_combination -hrel
  have hsq2 : (3 - v - R) ^ 2 = 2 * (3 - v) * (3 + S - R) := by
    linear_combination hR2
  have hquad : ((3 + S - R) ^ 2 - 6 * (3 + S - R) - 3 * a ^ 2) ^ 2 =
      64 * a ^ 2 * (3 + S - R) := by
    calc ((3 + S - R) ^ 2 - 6 * (3 + S - R) - 3 * a ^ 2) ^ 2
        = (2 * S * (3 - v - R)) ^ 2 := by rw [hsq1]
      _ = 4 * S ^ 2 * ((3 - v - R) ^ 2) := by ring
      _ = 4 * S ^ 2 * (2 * (3 - v) * (3 + S - R)) := by rw [hsq2]
      _ = 8 * (3 + S - R) * (S ^ 2 * (3 - v)) := by ring
      _ = 8 * (3 + S - R) * (8 * a ^ 2) := by rw [hKey]
      _ = 64 * a ^ 2 * (3 + S - R) := by ring
  set x := Real.sqrt (3 + S - R) with hxd
  have hx0 : 0 ≤ x := Real.sqrt_nonneg _
  have hx2 : x ^ 2 = 3 + S - R := Real.sq_sqrt (by linarith)
  have hsq' : ((3 + S - R) ^ 2 - 6 * (3 + S - R) - 3 * a ^ 2) ^ 2 = (8 * a * x) ^ 2 := by
    rw [hquad]
    linear_combination (-64) * a ^ 2 * hx2
  have hfac : (((3 + S - R) ^ 2 - 6 * (3 + S - R) - 3 * a ^ 2) - 8 * a * x) *
      (((3 + S - R) ^ 2 - 6 * (3 + S - R) - 3 * a ^ 2) + 8 * a * x) = 0 := by
    linear_combination hsq'
  have hx1 : 1 < x := one_lt_of_sq hx0 hx2 (by linarith)
  have hax : 0 < a * x := mul_pos h0 (by linarith)
  rcases mul_eq_zero.1 hfac with hcase | hcase
  · linarith [hcase, hsign, hax]
  · linarith [hcase]

/-- The retrograde ISCO value for `0 < a < 1`: bound `6 < r` and the
Bardeen quartic `r² - 6r - 8a·sqrt r - 3a² = 0`. -/
lemma risco_ret_props (a : ℝ) (h0 : 0 < a) (h1 : a < 1) :
    6 < riscoVal a false ∧
      riscoVal a false ^ 2 - 6 * riscoVal a false -
        8 * a * Real.sqrt (riscoVal a false) - 3 * a ^ 2 = 0 := by
  have hv1 : 1 < z1Val a := z1Val_gt_one a h0 h1
  have hv3 : z1Val a < 3 := z1Val_lt_three a h0 h1
  have hrel := z1_rel a h0.le h1
  obtain ⟨hS2, hSrel, hSgt, hSlt⟩ := z2_facts a h0 h1
  rw [riscoVal_false_eq]
  set v := z1Val a with hv
  set S := Real.sqrt (3 * |a| * |a| + v * v) with hSd
  have hS0 : 0 ≤ S := Real.sqrt_nonneg _
  have hSpos : 0 < S := by linarith
  set R := Real.sqrt ((3 - v) * (3 + v + 2 * S)) with hRd
  have hR0 : 0 ≤ R := Real.sqrt_nonneg _
  have hR2 : R ^ 2 = (3 - v) * (3 + v + 2 * S) :=
    Real.sq_sqrt (mul_nonneg (by linarith) (by linarith))
  have hQfac : 32 * (3 * v - 1) * (6 - v) ^ 2 - v ^ 2 * (3 * v + 7) ^ 2 =
      (3 - v) * (9 * v ^ 3 - 27 * v ^ 2 + 1152 * v - 384) := by ring
  have hv2lt : v ^ 2 < 9 := by nlinarith [hv1, hv3]
  have hv3gt : 1 < v ^ 3 := by nlinarith [hv1]
  have hcub : 0 < 9 * v ^ 3 - 27 * v ^ 2 + 1152 * v - 384 := by
    linarith [hv2lt, hv3gt, hv1]
  have hQpos : 0 < 32 * (3 * v - 1) * (6 - v) ^ 2 - v ^ 2 * (3 * v + 7) ^ 2 := by
    rw [hQfac]
    exact mul_pos (by linarith) hcub
  have hvv : 0 < v ^ 2 := pow_pos (by linarith) 2
  have hc1pos : 0 < v ^ 2 * (3 * v + 7) := mul_pos hvv (by linarith)
  have hc2pos : 0 < 2 * S * (3 * v - 1) * (6 - v) :=
    mul_pos (mul_pos (by linarith) (by linarith)) (by linarith)
  have hexp : (2 * S * (3 * v - 1) * (6 - v)) ^ 2 =
      4 * (3 * v - 1) * (6 - v) ^ 2 * (S ^ 2 * (3 * v - 1)) := by ring
  have hdiff : 4 * (3 * v - 1) * (6 - v) ^ 2 * (8 * v ^ 2) - (v ^ 2 * (3 * v + 7)) ^ 2 =
      v ^ 2 * (32 * (3 * v - 1) * (6 - v) ^ 2 - v ^ 2 * (3 * v + 7) ^ 2) := by ring
  have hprod : 0 < v ^ 2 * (32 * (3 * v - 1) * (6 - v) ^ 2 - v ^ 2 * (3 * v + 7) ^ 2) :=
    mul_pos hvv hQpos
  have hsqlt : (v ^ 2 * (3 * v + 7)) ^ 2 < (2 * S * (3 * v - 1) * (6 - v)) ^ 2 := by
    calc (v ^ 2 * (3 * v + 7)) ^ 2
        < 4 * (3 * v - 1) * (6 - v) ^ 2 * (8 * v ^ 2) := by linarith [hdiff, hprod]
      _ = 4 * (3 * v - 1) * (6 - v) ^ 2 * (S ^ 2 * (3 * v - 1)) := by rw [hSrel]
      _ = (2 * S * (3 * v - 1) * (6 - v)) ^ 2 := hexp.symm
  have hc1lt : v ^ 2 * (3 * v + 7) < 2 * S * (3 * v - 1) * (6 - v) :=
    lt_of_pow_lt_pow_left 2 hc2pos.le hsqlt
  have hid : ((S + v) ^ 2 - 12 * S) * (3 * v - 1) =
      v ^ 2 * (3 * v + 7) - 2 * S * (3 * v - 1) * (6 - v) := by
    linear_combination hSrel
  have h12S : (S + v) ^ 2 < 12 * S := by
    by_contra hcon
    push_neg at hcon
    have hnn : 0 ≤ ((S + v) ^ 2 - 12 * S) * (3 * v - 1) :=
      mul_nonneg (by linarith) (by linarith)
    linarith [hid, hc1lt, hnn]
  have hdiff2 : R ^ 2 - (3 - S) ^ 2 = 12 * S - (S + v) ^ 2 := by
    linear_combination hR2
  have hRsq2 : (3 - S) ^ 2 < R ^ 2 := by linarith [hdiff2, h12S]
  have hRpos : 0 < R := pos_of_sq_lt hRsq2 hR0
  have hRgt : 3 - S < R := by
    rcases le_or_lt (3 - S) 0 with hc | hc
    · linarith [hRpos]
    · exact lt_of_pow_lt_pow_left 2 hR0 hRsq2
  have hr6 : 6 < 3 + S + R := by linarith
  refine ⟨hr6, ?_⟩
  have hsq1 : (3 + S + R) ^ 2 - 6 * (3 + S + R) - 3 * a ^ 2 = 2 * S * (3 - v + R) := by
    linear_combination hS2 + hR2
  have hsign : 0 ≤ (3 + S + R) ^ 2 - 6 * (3 + S + R) - 3 * a ^ 2 := by
    rw [hsq1]
    have hnn : (0:ℝ) ≤ 3 - v + R := by linarith
    nlinarith [mul_nonneg hS0 hnn]
  have hKey : S ^ 2 * (3 - v) = 8 * a ^ 2 := by
    rw [hS2]
    linear_combination -hrel
  have hsq2 : (3 - v + R) ^ 2 = 2 * (3 - v) * (3 + S + R) := by
    linear_combination hR2
  have hquad : ((3 + S + R) ^ 2 - 6 * (3 + S + R) - 3 * a ^ 2) ^ 2 =
      64 * a ^ 2 * (3 + S + R) := by
    calc ((3 + S + R) ^ 2 - 6 * (3 + S + R) - 3 * a ^ 2) ^ 2
        = (2 * S * (3 - v + R)) ^ 2 := by rw [hsq1]
      _ = 4 * S ^ 2 * ((3 - v + R) ^ 2) := by ring
      _ = 4 * S ^ 2 * (2 * (3 - v) * (3 + S + R)) := by rw [hsq2]
      _ = 8 * (3 + S + R) * (S ^ 2 * (3 - v)) := by ring
      _ = 8 * (3 + S + R) * (8 * a ^ 2) := by rw [hKey]
      _ = 64 * a ^ 2 * (3 + S + R) := by ring
  set x := Real.sqrt (3 + S + R) with hxd
  have hx0 : 0 ≤ x := Real.sqrt_nonneg _
  have hx2 : x ^ 2 = 3 + S + R := Real.sq_sqrt (by linarith)
  have hsq' : ((3 + S + R) ^ 2 - 6 * (3 + S + R) - 3 * a ^ 2) ^ 2 = (8 * a * x) ^ 2 := by
    rw [hquad]
    linear_combination (-64) * a ^ 2 * hx2
  have hfac : (((3 + S + R) ^ 2 - 6 * (3 + S + R) - 3 * a ^ 2) - 8 * a * x) *
      (((3 + S + R) ^ 2 - 6 * (3 + S + R) - 3 * a ^ 2) + 8 * a * x) = 0 := by
    linear_combination hsq'
  have hx1 : 1 < x := one_lt_of_sq hx0 hx2 (by linarith)
  have hax : 0 < a * x := mul_pos h0 (by linarith)
  rcases mul_eq_zero.1 hfac with hcase | hcase
  · linarith [hcase]
  · linarith [hcase, hsign, hax]

/-- Secant/convexity contradiction for the prograde quartic
`x⁴ - 6x² + 8ax - 3a² = 0` on `x > 1`: a larger root cannot come from a
larger spin. -/
lemma pro_secant_contra (a1 a2 x1 x2 : ℝ) (h0 : 0 < a1) (h12 : a1 < a2) (h2 : a2 < 1)
    (hx1gt : 1 < x1) (hx2gt : 1 < x2)
    (g1 : x1 ^ 4 - 6 * x1 ^ 2 + 8 * a1 * x1 - 3 * a1 ^ 2 = 0)
    (g2 : x2 ^ 4 - 6 * x2 ^ 2 + 8 * a2 * x2 - 3 * a2 ^ 2 = 0)
    (hxle : x1 ≤ x2) : False := by
  rcases eq_or_lt_of_le hxle with heq | hlt
  · rw [← heq] at g2
    have hsub : (a1 - a2) * (8 * x1 - 3 * (a1 + a2)) = 0 := by
      linear_combination g1 - g2
    have hneg : (a1 - a2) * (8 * x1 - 3 * (a1 + a2)) < 0 :=
      mul_neg_of_neg_of_pos (by linarith) (by linarith)
    linarith [hsub, hneg]
  · have hdelta : x2 ^ 4 - 6 * x2 ^ 2 + 8 * a1 * x2 - 3 * a1 ^ 2 =
        (a1 - a2) * (8 * x2 - 3 * (a1 + a2)) := by
      linear_combination g2
    have hg2a1 : x2 ^ 4 - 6 * x2 ^ 2 + 8 * a1 * x2 - 3 * a1 ^ 2 < 0 := by
      rw [hdelta]
      exact mul_neg_of_neg_of_pos (by linarith) (by linarith)
    have hprod1 : 0 < (1 - a1) * (5 - 3 * a1) := mul_pos (by linarith) (by linarith)
    have hg1neg : 1 - 6 + 8 * a1 - 3 * a1 ^ 2 < 0 := by nlinarith [hprod1]
    have hkey : ((x2 ^ 4 - 6 * x2 ^ 2 + 8 * a1 * x2) - (x1 ^ 4 - 6 * x1 ^ 2 + 8 * a1 * x1)) *
          (x1 - 1) -
        ((x1 ^ 4 - 6 * x1 ^ 2 + 8 * a1 * x1) - (1 - 6 + 8 * a1)) * (x2 - x1) =
        (x1 - 1) * (x2 - x1) * (x2 - 1) *
          (1 + x1 ^ 2 + x2 ^ 2 + x1 + x2 + x1 * x2 - 6) := by
      ring
    have hx1sqgt : 1 < x1 ^ 2 := by nlinarith [hx1gt]
    have hx2sqgt : 1 < x2 ^ 2 := by nlinarith [hx2gt]
    have hx12gt : 1 < x1 * x2 := by nlinarith [hx1gt, hx2gt]
    have hbrpos : 0 < 1 + x1 ^ 2 + x2 ^ 2 + x1 + x2 + x1 * x2 - 6 := by
      linarith [hx1sqgt, hx2sqgt, hx12gt, hx1gt, hx2gt]
    have hRHSpos : 0 < (x1 - 1) * (x2 - x1) * (x2 - 1) *
        (1 + x1 ^ 2 + x2 ^ 2 + x1 + x2 + x1 * x2 - 6) :=
      mul_pos (mul_pos (mul_pos (by linarith) (by linarith)) (by linarith)) hbrpos
    have hApos : 0 < (x1 ^ 4 - 6 * x1 ^ 2 + 8 * a1 * x1) - (1 - 6 + 8 * a1) := by
      linarith [g1, hg1neg]
    have hBneg : (x2 ^ 4 - 6 * x2 ^ 2 + 8 * a1 * x2) - (x1 ^ 4 - 6 * x1 ^ 2 + 8 * a1 * x1) < 0 := by
      linarith [g1, hg2a1]
    have t1 : ((x2 ^ 4 - 6 * x2 ^ 2 + 8 * a1 * x2) - (x1 ^ 4 - 6 * x1 ^ 2 + 8 * a1 * x1)) *
        (x1 - 1) < 0 := mul_neg_of_neg_of_pos hBneg (by linarith)
    have t2 : 0 < ((x1 ^ 4 - 6 * x1 ^ 2 + 8 * a1 * x1) - (1 - 6 + 8 * a1)) * (x2 - x1) :=
      mul_pos hApos (by linarith)
    linarith [hkey, hRHSpos, t1, t2]

/-- Secant/convexity contradiction for the retrograde quartic
`x⁴ - 6x² - 8ax - 3a² = 0` on `x > sqrt 6`: a smaller root cannot come from
a larger spin. -/
lemma ret_secant_contra (a1 a2 u x1 x2 : ℝ) (h0 : 0 < a1) (h12 : a1 < a2)
    (hu2 : u ^ 2 = 6) (hu1 : 1 < u)
    (hx1u : u < x1) (hx2u : u < x2)
    (g1 : x1 ^ 4 - 6 * x1 ^ 2 - 8 * a1 * x1 - 3 * a1 ^ 2 = 0)
    (g2 : x2 ^ 4 - 6 * x2 ^ 2 - 8 * a2 * x2 - 3 * a2 ^ 2 = 0)
    (hxle : x2 ≤ x1) : False := by
  have hu4 : u ^ 4 = 36 := by
    linear_combination (u ^ 2 + 6) * hu2
  rcases eq_or_lt_of_le hxle with heq | hlt
  · rw [heq] at g2
    have hsub : (a2 - a1) * (8 * x1 + 3 * (a1 + a2)) = 0 := by
      linear_combination g1 - g2
    have hpos : 0 < (a2 - a1) * (8 * x1 + 3 * (a1 + a2)) :=
      mul_pos (by linarith) (by linarith)
    linarith [hsub, hpos]
  · have hdelta : x2 ^ 4 - 6 * x2 ^ 2 - 8 * a1 * x2 - 3 * a1 ^ 2 =
        (a2 - a1) * (8 * x2 + 3 * (a1 + a2)) := by
      linear_combination g2
    have hg2a1 : 0 < x2 ^ 4 - 6 * x2 ^ 2 - 8 * a1 * x2 - 3 * a1 ^ 2 := by
      rw [hdelta]
      exact mul_pos (by linarith) (by linarith)
    have ha1u : 0 < a1 * u := mul_pos h0 (by linarith)
    have hguneg : u ^ 4 - 6 * u ^ 2 - 8 * a1 * u - 3 * a1 ^ 2 < 0 := by
      have hsq : 0 ≤ a1 ^ 2 := sq_nonneg a1
      linarith [hu4, hu2, ha1u, hsq]
    have hkey : ((x1 ^ 4 - 6 * x1 ^ 2 - 8 * a1 * x1) - (x2 ^ 4 - 6 * x2 ^ 2 - 8 * a1 * x2)) *
          (x2 - u) -
        ((x2 ^ 4 - 6 * x2 ^ 2 - 8 * a1 * x2) - (u ^ 4 - 6 * u ^ 2 - 8 * a1 * u)) * (x1 - x2) =
        (x2 - u) * (x1 - x2) * (x1 - u) *
          (u ^ 2 + x2 ^ 2 + x1 ^ 2 + u * x2 + u * x1 + x2 * x1 - 6) := by
      ring
    have hux2 : 0 < u * x2 := mul_pos (by linarith) (by linarith)
    have hux1 : 0 < u * x1 := mul_pos (by linarith) (by linarith)
    have hx21 : 0 < x2 * x1 := mul_pos (by linarith) (by linarith)
    have hx1sqpos : 0 < x1 ^ 2 := pow_pos (by linarith) 2
    have hx2sqpos : 0 < x2 ^ 2 := pow_pos (by linarith) 2
    have hbrpos : 0 < u ^ 2 + x2 ^ 2 + x1 ^ 2 + u * x2 + u * x1 + x2 * x1 - 6 := by
      linarith [hu2, hx1sqpos, hx2sqpos, hux2, hux1, hx21]
    have hRHSpos : 0 < (x2 - u) * (x1 - x2) * (x1 - u) *
        (u ^ 2 + x2 ^ 2 + x1 ^ 2 + u * x2 + u * x1 + x2 * x1 - 6) :=
      mul_pos (mul_pos (mul_pos (by linarith) (by linarith)) (by linarith)) hbrpos
    have hApos : 0 < (x2 ^ 4 - 6 * x2 ^ 2 - 8 * a1 * x2) - (u ^ 4 - 6 * u ^ 2 - 8 * a1 * u) := by
      linarith [hg2a1, hguneg]
    have hBneg : (x1 ^ 4 - 6 * x1 ^ 2 - 8 * a1 * x1) - (x2 ^ 4 - 6 * x2 ^ 2 - 8 * a1 * x2) < 0 := by
      linarith [g1, hg2a1]
    have t1 : ((x1 ^ 4 - 6 * x1 ^ 2 - 8 * a1 * x1) - (x2 ^ 4 - 6 * x2 ^ 2 - 8 * a1 * x2)) *
        (x2 - u) < 0 := mul_neg_of_neg_of_pos hBneg (by linarith)
    have t2 : 0 < ((x2 ^ 4 - 6 * x2 ^ 2 - 8 * a1 * x2) - (u ^ 4 - 6 * u ^ 2 - 8 * a1 * u)) *
        (x1 - x2) := mul_pos hApos (by linarith)
    linarith [hkey, hRHSpos, t1, t2]

/-- C4: for `0 < a1 < a2 < 0.99`, the prograde ISCO radius is strictly
decreasing in the spin and the retrograde ISCO radius is strictly
increasing (these are the values `r_isco` returns for valid spins). -/
theorem r_isco_monotonic (a1 a2 : ℝ) (h0 : 0 < a1) (h12 : a1 < a2) (h2 : a2 < 0.99) :
    riscoVal a2 true < riscoVal a1 true ∧ riscoVal a1 false < riscoVal a2 false := by
  have h1' : a2 < 1 := by
    have : (0.99 : ℝ) < 1 := by norm_num
    linarith
  have h01 : a1 < 1 := by linarith
  have h02 : 0 < a2 := by linarith
  obtain ⟨hp1a, hp1b, hp1q⟩ := risco_pro_props a1 h0 h01
  obtain ⟨hp2a, hp2b, hp2q⟩ := risco_pro_props a2 h02 h1'
  obtain ⟨hl1, hq1⟩ := risco_ret_props a1 h0 h01
  obtain ⟨hl2, hq2⟩ := risco_ret_props a2 h02 h1'
  constructor
  · by_contra hcon
    push_neg at hcon
    have hx1sq : Real.sqrt (riscoVal a1 true) ^ 2 = riscoVal a1 true :=
      Real.sq_sqrt (by linarith)
    have hx2sq : Real.sqrt (riscoVal a2 true) ^ 2 = riscoVal a2 true :=
      Real.sq_sqrt (by linarith)
    refine pro_secant_contra a1 a2 (Real.sqrt (riscoVal a1 true))
      (Real.sqrt (riscoVal a2 true)) h0 h12 h1'
      (one_lt_of_sq (Real.sqrt_nonneg _) hx1sq hp1a)
      (one_lt_of_sq (Real.sqrt_nonneg _) hx2sq hp2a)
      (by linear_combination hp1q + (Real.sqrt (riscoVal a1 true) ^ 2 +
        riscoVal a1 true - 6) * hx1sq)
      (by linear_combination hp2q + (Real.sqrt (riscoVal a2 true) ^ 2 +
        riscoVal a2 true - 6) * hx2sq)
      (Real.sqrt_le_sqrt hcon)
  · by_contra hcon
    push_neg at hcon
    have hu2 : Real.sqrt 6 ^ 2 = 6 := Real.sq_sqrt (by norm_num)
    have hu1 : 1 < Real.sqrt 6 := one_lt_of_sq (Real.sqrt_nonneg _) hu2 (by norm_num)
    have hx1sq : Real.sqrt (riscoVal a1 false) ^ 2 = riscoVal a1 false :=
      Real.sq_sqrt (by linarith)
    have hx2sq : Real.sqrt (riscoVal a2 false) ^ 2 = riscoVal a2 false :=
      Real.sq_sqrt (by linarith)
    refine ret_secant_contra a1 a2 (Real.sqrt 6) (Real.sqrt (riscoVal a1 false))
      (Real.sqrt (riscoVal a2 false)) h0 h12 hu2 hu1
      (lt_of_pow_lt_pow_left 2 (Real.sqrt_nonneg _) (by linarith [hu2, hx1sq, hl1]))
      (lt_of_pow_lt_pow_left 2 (Real.sqrt_nonneg _) (by linarith [hu2, hx2sq, hl2]))
      (by linear_combination hq1 + (Real.sqrt (riscoVal a1 false) ^ 2 +
        riscoVal a1 false - 6) * hx1sq)
      (by linear_combination hq2 + (Real.sqrt (riscoVal a2 false) ^ 2 +
        riscoVal a2 false - 6) * hx2sq)
      (Real.sqrt_le_sqrt hcon)

/-- Witness for C4 at `a1 = 1/2`, `a2 = 3/4`. -/
theorem r_isco_monotonic_witness :
    ((0 : ℝ) < 1/2 ∧ (1/2 : ℝ) < 3/4 ∧ (3/4 : ℝ) < 0.99) ∧
    riscoVal (3/4) true < riscoVal (1/2) true ∧
    riscoVal (1/2) false < riscoVal (3/4) false :=
  ⟨⟨by norm_num, by norm_num, by norm_num⟩,
    r_isco_monotonic (1/2) (3/4) (by norm_num) (by norm_num) (by norm_num)⟩

/-! ## Broadcasting (C6): guard positivity at the ISCO and array agreement -/

lemma riscoVal_abs (a : ℝ) (pro : Bool) : riscoVal a pro = riscoVal |a| pro := by
  simp only [riscoVal, z1Val, abs_abs]

lemma innerVal_abs (r a : ℝ) (pro : Bool) : innerVal r a pro = innerVal r |a| pro := by
  simp only [innerVal, abs_abs]

lemma pos_factor {x y : ℝ} (h : 0 < x * y) (hx : 0 < x) : 0 < y := by
  nlinarith

lemma risco_guards (a : ℝ) (ha : |a| < 1) (pro : Bool) :
    0 < riscoVal a pro ∧ 0 < innerVal (riscoVal a pro) a pro := by
  rw [riscoVal_abs a pro, innerVal_abs (riscoVal |a| pro) a pro]
  have habs0 : 0 ≤ |a| := abs_nonneg a
  have habsabs : |(|a|)| = |a| := abs_abs a
  rcases eq_or_lt_of_le habs0 with h0 | h0
  · rw [← h0, riscoVal_zero]
    have h6 : 0 < Real.sqrt 6 := Real.sqrt_pos.2 (by norm_num)
    refine ⟨by norm_num, ?_⟩
    unfold innerVal
    rw [abs_zero]
    cases pro <;> norm_num
  · cases pro
    · obtain ⟨hl, hq⟩ := risco_ret_props |a| h0 ha
      have hr0 : 0 < riscoVal |a| false := by linarith
      refine ⟨hr0, ?_⟩
      unfold innerVal
      rw [habsabs]
      have hx2 : Real.sqrt (riscoVal |a| false) ^ 2 = riscoVal |a| false :=
        Real.sq_sqrt hr0.le
      have hx1 : 1 < Real.sqrt (riscoVal |a| false) :=
        one_lt_of_sq (Real.sqrt_nonneg _) hx2 (by linarith)
      have hid : Real.sqrt (riscoVal |a| false) *
          (riscoVal |a| false * Real.sqrt (riscoVal |a| false) -
            3 * Real.sqrt (riscoVal |a| false) + 2 * -|a|) =
          3 * (Real.sqrt (riscoVal |a| false) + |a|) ^ 2 := by
        linear_combination hq + (riscoVal |a| false - 6) * hx2
      have hfacpos : 0 < 3 * (Real.sqrt (riscoVal |a| false) + |a|) ^ 2 := by
        have : 0 < Real.sqrt (riscoVal |a| false) + |a| := by linarith
        positivity
      have hmul : 0 < Real.sqrt (riscoVal |a| false) *
          (riscoVal |a| false * Real.sqrt (riscoVal |a| false) -
            3 * Real.sqrt (riscoVal |a| false) + 2 * -|a|) := by
        rw [hid]
        exact hfacpos
      exact pos_factor hmul (by linarith)
    · obtain ⟨h1, h6b, hq⟩ := risco_pro_props |a| h0 ha
      have hr0 : 0 < riscoVal |a| true := by linarith
      refine ⟨hr0, ?_⟩
      unfold innerVal
      rw [habsabs]
      have hx2 : Real.sqrt (riscoVal |a| true) ^ 2 = riscoVal |a| true :=
        Real.sq_sqrt hr0.le
      have hx1 : 1 < Real.sqrt (riscoVal |a| true) :=
        one_lt_of_sq (Real.sqrt_nonneg _) hx2 (by linarith)
      have hid : Real.sqrt (riscoVal |a| true) *
          (riscoVal |a| true * Real.sqrt (riscoVal |a| true) -
            3 * Real.sqrt (riscoVal |a| true) + 2 * |a|) =
          3 * (Real.sqrt (riscoVal |a| true) - |a|) ^ 2 := by
        linear_combination hq + (riscoVal |a| true - 6) * hx2
      have hfacpos : 0 < 3 * (Real.sqrt (riscoVal |a| true) - |a|) ^ 2 := by
        have : 0 < Real.sqrt (riscoVal |a| true) - |a| := by linarith
        positivity
      have hmul : 0 < Real.sqrt (riscoVal |a| true) *
          (riscoVal |a| true * Real.sqrt (riscoVal |a| true) -
            3 * Real.sqrt (riscoVal |a| true) + 2 * |a|) := by
        rw [hid]
        exact hfacpos
      exact pos_factor hmul (by linarith)

lemma r_isco_ok (a : ℝ) (ha : |a| < 1) (pro : Bool) :
    r_isco a pro = .ok (riscoVal a pro) := by
  unfold r_isco
  rw [if_neg (not_le.2 ha)]

lemma E_equatorial_risco_ok (a : ℝ) (ha : |a| < 1) (pro : Bool) :
    E_equatorial (riscoVal a pro) a pro = .ok (EVal (riscoVal a pro) a pro) := by
  obtain ⟨hr, hi⟩ := risco_guards a ha pro
  unfold E_equatorial
  rw [if_neg (not_le.2 hr), if_neg (not_le.2 ha), if_neg (not_le.2 hi)]

lemma eta_ok (a : ℝ) (ha : |a| < 1) (pro : Bool) :
    eta a pro = .ok (1 - EVal (riscoVal a pro) a pro) := by
  unfold eta
  rw [r_isco_ok a ha pro]
  show (do
    let e ← E_equatorial (riscoVal a pro) a pro
    pure (1 - e) : Except String ℝ) = _
  rw [E_equatorial_risco_ok a ha pro]
  rfl

/-- C6 (counterexample): `z1` and `z2` do not broadcast — on the two-element
array `[0, 1/2]` of valid spins they raise (`float()` on a size-2 array)
instead of returning a same-shaped array. -/
theorem z1_arr_not_broadcast :
    (z1_arr [0, 1/2]).isOk = false ∧ (z2_arr [0, 1/2]).isOk = false := by
  have hany : (List.any [0, (1:ℝ)/2] fun x => 1 ≤ |x|) = false := by
    simp only [List.any_cons, List.any_nil, Bool.or_false, Bool.or_eq_false_iff,
      decide_eq_false_iff_not]
    constructor
    · norm_num
    · norm_num [abs_lt]
  constructor
  · unfold z1_arr
    rw [if_neg (by rw [hany]; exact Bool.false_ne_true)]
    rfl
  · unfold z2_arr
    rw [if_neg (by rw [hany]; exact Bool.false_ne_true)]
    rfl

lemma zip_map_self (as : List ℝ) (f : ℝ → ℝ) :
    (as.map f).zip as = as.map fun a => (f a, a) := by
  induction as with
  | nil => rfl
  | cons x xs ih => simp [ih]

/-- C6 (amended): `r_isco`, `E_equatorial` and `eta` broadcast — on a list of
spins with all `|a| < 1` the array version returns the same-length list of
the scalar results applied entrywise — while `z1` and `z2` do not (see the
counterexample). -/
theorem isco_broadcast_amended (as : List ℝ) (pro : Bool) (h : ∀ x ∈ as, |x| < 1) :
    r_isco_arr as pro = .ok (as.map fun a => riscoVal a pro) ∧
    (as.map fun a => riscoVal a pro).length = as.length ∧
    (∀ a ∈ as, r_isco a pro = .ok (riscoVal a pro)) ∧
    E_equatorial_arr (as.map fun a => riscoVal a pro) as pro =
      .ok (as.map fun a => EVal (riscoVal a pro) a pro) ∧
    (∀ a ∈ as, E_equatorial (riscoVal a pro) a pro = .ok (EVal (riscoVal a pro) a pro)) ∧
    eta_arr as pro = .ok (as.map fun a => 1 - EVal (riscoVal a pro) a pro) ∧
    (as.map fun a => 1 - EVal (riscoVal a pro) a pro).length = as.length ∧
    (∀ a ∈ as, eta a pro = .ok (1 - EVal (riscoVal a pro) a pro)) := by
  have hany : (as.any fun x => 1 ≤ |x|) = false := by
    rw [List.any_eq_false]
    intro x hx
    simp only [decide_eq_true_eq]
    exact not_le.2 (h x hx)
  have hok_r : r_isco_arr as pro = .ok (as.map fun a => riscoVal a pro) := by
    unfold r_isco_arr
    rw [if_neg (by simp [hany])]
  have hanyr : ((as.map fun a => riscoVal a pro).any fun r => r ≤ 0) = false := by
    rw [List.any_eq_false]
    intro r hr
    simp only [List.mem_map] at hr
    obtain ⟨a', ha', rfl⟩ := hr
    simp only [decide_eq_true_eq]
    exact not_le.2 (risco_guards a' (h a' ha') pro).1
  have hanyz : (((as.map fun a => riscoVal a pro).zip as).any
      fun p => innerVal p.1 p.2 pro ≤ 0) = false := by
    rw [zip_map_self, List.any_eq_false]
    intro p hp
    simp only [List.mem_map] at hp
    obtain ⟨a', ha', rfl⟩ := hp
    simp only [decide_eq_true_eq]
    exact not_le.2 (risco_guards a' (h a' ha') pro).2
  have hE : E_equatorial_arr (as.map fun a => riscoVal a pro) as pro =
      .ok (as.map fun a => EVal (riscoVal a pro) a pro) := by
    unfold E_equatorial_arr
    rw [if_neg (by simp [hanyr]), if_neg (by simp [hany]), if_neg (by simp [hanyz]),
      zip_map_self, List.map_map]
    rfl
  have hEta : eta_arr as pro = .ok (as.map fun a => 1 - EVal (riscoVal a pro) a pro) := by
    unfold eta_arr
    rw [hok_r]
    show (do
      let es ← E_equatorial_arr (as.map fun a => riscoVal a pro) as pro
      pure (es.map fun e => 1 - e) : Except String (List ℝ)) = _
    rw [hE]
    show Except.ok ((as.map fun a => EVal (riscoVal a pro) a pro).map fun e => 1 - e) = _
    rw [List.map_map]
    rfl
  exact ⟨hok_r, by rw [List.length_map], fun a ha => r_isco_ok a (h a ha) pro, hE,
    fun a ha => E_equatorial_risco_ok a (h a ha) pro, hEta, by rw [List.length_map],
    fun a ha => eta_ok a (h a ha) pro⟩

/-- Witness for C6 (amended) with the spin array `[0, 1/2]`, prograde. -/
theorem isco_broadcast_amended_witness :
    (∀ x ∈ [(0:ℝ), 1/2], |x| < 1) ∧
    r_isco_arr [0, 1/2] true = .ok ([(0:ℝ), 1/2].map fun a => riscoVal a true) ∧
    eta_arr [0, 1/2] true = .ok ([(0:ℝ), 1/2].map fun a => 1 - EVal (riscoVal a true) a true) := by
  have h : ∀ x ∈ [(0:ℝ), 1/2], |x| < 1 := by
    intro x hx
    simp only [List.mem_cons, List.mem_singleton, List.not_mem_nil, or_false] at hx
    rcases hx with rfl | rfl
    · norm_num
    · norm_num [abs_lt]
  obtain ⟨h1, _, _, _, _, h6, _, _⟩ := isco_broadcast_amended [0, 1/2] true h
  exact ⟨h, h1, h6⟩

end Kerr
